import Mathlib

/-!
Verification of the Tokamak zk-EVM Synthesizer documentation against its
embedded implementation snippets.

The development shallowly embeds the data model and operations of the
Synthesizer frontend (dual EVM/symbolic interpreter, placement bookkeeping,
buffer management, symbolic memory with aliasing, and the finalizer's
limb splitting) as executable Lean definitions, and proves the documented
properties about them.  EVM words are `Nat` values taken modulo `2 ^ 256`.
-/

namespace Synth

/-- Word modulus of the 256-bit EVM (`TWO_POW256` in the source). -/
def TWO_POW256 : Nat := 2 ^ 256

/-- Provenance of a DataPt: a literal constant or the id of the placement
that produced it (`source: placement-id | "literal"`). -/
inductive Source where
  | literal : Source
  | placement : Nat → Source
deriving DecidableEq, Repr

/-- A tracked symbolic value (`DataPt`): the concrete 256-bit value together
with provenance metadata. -/
structure DataPt where
  value : Nat
  source : Source
  wireIndex : Option Nat
  sourceSize : Nat
deriving DecidableEq, Repr

/-- One circuit node (`PlacementEntry`): a subcircuit instance with its
ordered input and output symbols. -/
structure Placement where
  subcircuitName : String
  usage : String
  inPts : List DataPt
  outPts : List DataPt
deriving DecidableEq, Repr

/-- Association-list update with `Map.set` semantics: replaces the binding
for the key if present, otherwise appends it. -/
def mapSet (m : List (Nat × Placement)) (k : Nat) (v : Placement) :
    List (Nat × Placement) :=
  match m with
  | [] => [(k, v)]
  | (k0, v0) :: rest => if k0 = k then (k, v) :: rest else (k0, v0) :: mapSet rest k v

/-- Association-list lookup with `Map.get` semantics. -/
def mapGet (m : List (Nat × Placement)) (k : Nat) : Option Placement :=
  match m with
  | [] => none
  | (k0, v0) :: rest => if k0 = k then some v0 else mapGet rest k

/-- Buffer placement indices (`PUB_IN`, `PUB_OUT`, `PRV_IN`, `PRV_OUT`). -/
def PUB_IN_PLACEMENT_INDEX : Nat := 0

/-- Index of the public-output buffer placement. -/
def PUB_OUT_PLACEMENT_INDEX : Nat := 1

/-- Index of the private-input buffer placement. -/
def PRV_IN_PLACEMENT_INDEX : Nat := 2

/-- Index of the private-output buffer placement. -/
def PRV_OUT_PLACEMENT_INDEX : Nat := 3

/-- First placement index available to non-buffer placements
(`INITIAL_PLACEMENT_INDEX`). -/
def INITIAL_PLACEMENT_INDEX : Nat := 4

/-- An empty buffer placement created by `_initializePlacements`. -/
def bufferPlacement (name : String) : Placement :=
  { subcircuitName := "buffer", usage := name, inPts := [], outPts := [] }

/-- The four reserved buffer placements created at construction
(`_initializePlacements`, ids 0 through 3). -/
def initPlacements : List (Nat × Placement) :=
  [(PUB_IN_PLACEMENT_INDEX, bufferPlacement "PUB_IN"),
   (PUB_OUT_PLACEMENT_INDEX, bufferPlacement "PUB_OUT"),
   (PRV_IN_PLACEMENT_INDEX, bufferPlacement "PRV_IN"),
   (PRV_OUT_PLACEMENT_INDEX, bufferPlacement "PRV_OUT")]

/-- The Synthesizer's single mutable state (`StateManager`): the placements
map, the sequential placement-index counter, the warm storage cache
(`storagePt`) and the auxiliary-input list (`auxin`). -/
structure StateManager where
  placements : List (Nat × Placement)
  placementIndex : Nat
  storagePt : List (String × DataPt)
  auxin : List Nat
deriving DecidableEq, Repr

/-- StateManager construction: buffer placements 0 through 3 are created and
the placement counter starts at `INITIAL_PLACEMENT_INDEX` (4). -/
def StateManager.mk0 : StateManager :=
  { placements := initPlacements
    placementIndex := INITIAL_PLACEMENT_INDEX
    storagePt := []
    auxin := [] }

/-- The sequential id generator (`getNextPlacementIndex`): returns the current
counter value and post-increments it (`return this.placementIndex++`). -/
def getNextPlacementIndex (s : StateManager) : Nat × StateManager :=
  (s.placementIndex, { s with placementIndex := s.placementIndex + 1 })

/-- Registration of a freshly built placement under the id obtained from
`getNextPlacementIndex`, as in
`this.state.placements.set(this.state.getNextPlacementIndex(), placement)`. -/
def registerNext (s : StateManager) (p : Placement) : StateManager :=
  let (id, s1) := getNextPlacementIndex s
  { s1 with placements := mapSet s1.placements id p }

/-- Registration of a whole sequence of placements in order. -/
def registerAll (s : StateManager) (ps : List Placement) : StateManager :=
  ps.foldl registerNext s

/-- Ids assigned by `getNextPlacementIndex` to a sequence of placement
registrations, in order. -/
def assignedIds (s : StateManager) (ps : List Placement) : List Nat :=
  match ps with
  | [] => []
  | p :: rest => (getNextPlacementIndex s).1 :: assignedIds (registerNext s p) rest

/-- Buffer-manager input conversion (`addWireToInBuffer`): mints a new symbol
for a raw external value by appending a wire to the given input-buffer
placement; the new symbol's `source` is the buffer's placement id and its
`wireIndex` is the next free index in that buffer.  Returns `none` when the
buffer placement does not exist (the source dereferences it with `!`). -/
def addWireToInBuffer (s : StateManager) (inPt : DataPt) (placementId : Nat) :
    Option (DataPt × StateManager) :=
  match mapGet s.placements placementId with
  | none => none
  | some buf =>
    let nextIndex := buf.outPts.length
    let outPt : DataPt :=
      { value := inPt.value, source := .placement placementId,
        wireIndex := some nextIndex, sourceSize := inPt.sourceSize }
    let buf1 :=
      { buf with inPts := buf.inPts ++ [inPt], outPts := buf.outPts ++ [outPt] }
    some (outPt, { s with placements := mapSet s.placements placementId buf1 })

/-- Cache key for one storage slot, as in the source:
`${codeAddress}_${key.toString()}`. -/
def storageKeyString (codeAddress : String) (key : Nat) : String :=
  codeAddress ++ "_" ++ toString key

/-- Data-loader storage read (`DataLoader.loadStorage`): on a cache hit the
previously issued symbol is returned with no side effects; on a miss a new
symbol is minted into the `PRV_IN` buffer and cached. -/
def loadStorage (s : StateManager) (codeAddress : String) (key value : Nat) :
    Option (DataPt × StateManager) :=
  match s.storagePt.lookup (storageKeyString codeAddress key) with
  | some pt => some (pt, s)
  | none =>
    match addWireToInBuffer s
        { value := value, source := .literal, wireIndex := none, sourceSize := 32 }
        PRV_IN_PLACEMENT_INDEX with
    | none => none
    | some (outPt, s1) =>
      some (outPt,
        { s1 with storagePt :=
            (storageKeyString codeAddress key, outPt) :: s1.storagePt })

/-- Auxiliary-input loading (`loadAuxin`): wraps a hardcoded value in a
literal symbol and records it in the auxiliary-input list; no placement is
created. -/
def loadAuxin (s : StateManager) (v : Nat) : DataPt × StateManager :=
  ({ value := v, source := .literal, wireIndex := none, sourceSize := 32 },
   { s with auxin := s.auxin ++ [v] })

/-- Binary arithmetic, comparison, bitwise and shift opcodes handled by
`synthesizerArith`. -/
inductive BinaryOp where
  | ADD | MUL | SUB | DIV | MOD | LT | GT | EQ
  | AND | OR | XOR | SHL | SHR
deriving DecidableEq, Repr

/-- Unary opcodes handled by `synthesizerArith`. -/
inductive UnaryOp where
  | ISZERO | NOT
deriving DecidableEq, Repr

/-- Signed modulus used by the handlers (`mod(x, TWO_POW256)` from the
source utilities): a nonnegative representative of `x` modulo `2 ^ 256`. -/
def evmMod (x : Int) : Nat :=
  ((x % (TWO_POW256 : Int) + TWO_POW256) % TWO_POW256).toNat

/-- Value semantics of the binary opcode handlers, exactly as in the
documented handler bodies (`(a + b) % TWO_POW256`, division by zero gives 0,
shifts masked to 256 bits, comparisons produce 0 or 1). -/
def binResult : BinaryOp → Nat → Nat → Nat
  | .ADD, a, b => (a + b) % TWO_POW256
  | .MUL, a, b => (a * b) % TWO_POW256
  | .SUB, a, b => evmMod ((a : Int) - (b : Int))
  | .DIV, a, b => if b = 0 then 0 else (a / b) % TWO_POW256
  | .MOD, a, b => if b = 0 then 0 else (a % b) % TWO_POW256
  | .LT, a, b => if a < b then 1 else 0
  | .GT, a, b => if b < a then 1 else 0
  | .EQ, a, b => if a = b then 1 else 0
  | .AND, a, b => a &&& b
  | .OR, a, b => a ||| b
  | .XOR, a, b => a ^^^ b
  | .SHL, a, b => (b <<< a) &&& (TWO_POW256 - 1)
  | .SHR, a, b => b >>> a

/-- Value semantics of the unary opcode handlers. -/
def unResult : UnaryOp → Nat → Nat
  | .ISZERO, a => if a = 0 then 1 else 0
  | .NOT, a => TWO_POW256 - 1 - a

/-- Subcircuit name and selector for a binary operation
(`SUBCIRCUIT_MAPPING`); `none` for the dedicated bitwise circuits. -/
def binMapping : BinaryOp → String × Option Nat
  | .ADD => ("ALU1", some (1 <<< 1))
  | .MUL => ("ALU1", some (1 <<< 2))
  | .SUB => ("ALU1", some (1 <<< 3))
  | .DIV => ("ALU2", some (1 <<< 4))
  | .MOD => ("ALU2", some (1 <<< 6))
  | .LT => ("ALU4", some (1 <<< 16))
  | .GT => ("ALU4", some (1 <<< 17))
  | .EQ => ("ALU1", some (1 <<< 20))
  | .AND => ("AND", none)
  | .OR => ("OR", none)
  | .XOR => ("XOR", none)
  | .SHL => ("ALU3", some (1 <<< 27))
  | .SHR => ("ALU3", some (1 <<< 28))

/-- Subcircuit name and selector for a unary operation. -/
def unMapping : UnaryOp → String × Option Nat
  | .ISZERO => ("ALU1", some (1 <<< 21))
  | .NOT => ("ALU1", some (1 <<< 25))

/-- Literal selector symbol prepended to a placement's inputs. -/
def selectorPt (sel : Nat) : DataPt :=
  { value := sel, source := .literal, wireIndex := none, sourceSize := 32 }

/-- Operation-handler placement creation, composed literally from the two
documented snippets: step 5 (`operationHandler.ts:80`) creates the output
DataPt with `source: this.state.getNextPlacementIndex()`, and step 6
(`stateManager.ts:48`) registers the placement with
`placements.set(this.state.getNextPlacementIndex(), placement)`.
Returns the output symbol, the id the placement was registered under, and
the updated state. -/
def placeArith (s : StateManager) (subcircuitName : String) (sel : Option Nat)
    (usage : String) (inPts : List DataPt) (outValue : Nat) :
    DataPt × Nat × StateManager :=
  let (outId, s1) := getNextPlacementIndex s
  let outPt : DataPt :=
    { value := outValue, source := .placement outId,
      wireIndex := some 0, sourceSize := 32 }
  let allInPts :=
    match sel with
    | some v => selectorPt v :: inPts
    | none => inPts
  let entry : Placement :=
    { subcircuitName := subcircuitName, usage := usage,
      inPts := allInPts, outPts := [outPt] }
  let (regId, s2) := getNextPlacementIndex s1
  (outPt, regId, { s2 with placements := mapSet s2.placements regId entry })

/-- Opcodes of the dual interpreter modeled here: the arithmetic family and
the pure stack manipulations `POP`, `PUSH`, `DUP`, `SWAP`. -/
inductive Opcode where
  | binary (op : BinaryOp)
  | unary (op : UnaryOp)
  | pop
  | push (v : Nat)
  | dup (n : Nat)
  | swap (n : Nat)
deriving DecidableEq, Repr

/-- Concrete EVM handler for one opcode acting on the concrete stack
(head of the list is the top of the stack); `none` is a stack underflow. -/
def concreteStep : Opcode → List Nat → Option (List Nat)
  | .binary op, a :: b :: rest => some (binResult op a b :: rest)
  | .binary _, _ => none
  | .unary op, a :: rest => some (unResult op a :: rest)
  | .unary _, _ => none
  | .pop, _ :: rest => some rest
  | .pop, [] => none
  | .push v, st => some (v :: st)
  | .dup n, st =>
    match st.get? (n - 1) with
    | some v => some (v :: st)
    | none => none
  | .swap n, st =>
    match st.get? 0, st.get? n with
    | some a, some b => some ((st.set 0 b).set n a)
    | _, _ => none

/-- Symbolic Synthesizer handler for one opcode acting on the symbolic stack:
arithmetic opcodes pop input symbols, compute the result with the same value
semantics as the concrete handler and push the output symbol of a new
placement (`synthesizerArith`); `PUSH` loads an auxiliary input; the stack
manipulations mirror the concrete ones on symbols. -/
def symbolicStep : Opcode → StateManager → List DataPt →
    Option (StateManager × List DataPt)
  | .binary op, s, a :: b :: rest =>
    let r := placeArith s (binMapping op).1 (binMapping op).2
      (toString (repr op)) [a, b] (binResult op a.value b.value)
    some (r.2.2, r.1 :: rest)
  | .binary _, _, _ => none
  | .unary op, s, a :: rest =>
    let r := placeArith s (unMapping op).1 (unMapping op).2
      (toString (repr op)) [a] (unResult op a.value)
    some (r.2.2, r.1 :: rest)
  | .unary _, _, _ => none
  | .pop, s, _ :: rest => some (s, rest)
  | .pop, _, [] => none
  | .push v, s, st =>
    let (pt, s1) := loadAuxin s v
    some (s1, pt :: st)
  | .dup n, s, st =>
    match st.get? (n - 1) with
    | some pt => some (s, pt :: st)
    | none => none
  | .swap n, s, st =>
    match st.get? 0, st.get? n with
    | some a, some b => some (s, (st.set 0 b).set n a)
    | _, _ => none

/-- Consistency predicate checked after every opcode
(`interpreter.ts:441-449`): equal stack lengths and positionally equal
values between the concrete stack and the symbolic stack. -/
def stackConsistent (stack : List Nat) (stackPt : List DataPt) : Bool :=
  stack.length == stackPt.length &&
    (stack.zip stackPt).all fun p => p.1 == p.2.value

/-- Post-opcode consistency check: any mismatch throws the fatal
`Stack mismatch` error that aborts synthesis of the transaction. -/
def consistencyCheck (stack : List Nat) (stackPt : List DataPt) :
    Except String Unit :=
  if stackConsistent stack stackPt then .ok ()
  else .error "Synthesizer: Stack mismatch between EVM and Synthesizer"

/-- One step of the dual interpreter (`Interpreter.runStep`): run the
concrete handler, run the symbolic handler, then assert stack consistency;
a mismatch aborts with the fatal error. -/
def runStep (op : Opcode) (s : StateManager) (stack : List Nat)
    (stackPt : List DataPt) :
    Except String (StateManager × List Nat × List DataPt) :=
  match concreteStep op stack with
  | none => .error "stack underflow"
  | some stack1 =>
    match symbolicStep op s stackPt with
    | none => .error "stack underflow"
    | some (s1, stackPt1) =>
      match consistencyCheck stack1 stackPt1 with
      | .error e => .error e
      | .ok _ => .ok (s1, stack1, stackPt1)

/-- Modelled from the spec: a symbolic memory entry of `MemoryPt`
(`{ timestamp, memOffset, containerSize, dataPt }`); only the written
value of the `dataPt` is relevant to the byte-level read semantics. -/
structure MemEntry where
  timestamp : Nat
  memOffset : Nat
  containerSize : Nat
  value : Nat
deriving DecidableEq, Repr

/-- The symbolic memory: the full timestamped write history, never
overwritten or deleted. -/
abbrev MemoryPt := List MemEntry

/-- Modelled from the spec: a memory write appends a new entry whose
timestamp is strictly larger than all existing ones; prior entries are
never mutated or removed. -/
def MemoryPt.write (m : MemoryPt) (offset size value : Nat) : MemoryPt :=
  m ++ [{ timestamp := m.length, memOffset := offset,
          containerSize := size, value := value }]

/-- Byte-range membership of an address in an entry's container. -/
def MemEntry.covers (e : MemEntry) (j : Nat) : Prop :=
  e.memOffset ≤ j ∧ j < e.memOffset + e.containerSize

instance (e : MemEntry) (j : Nat) : Decidable (e.covers j) := by
  unfold MemEntry.covers; infer_instance

/-- Byte of an entry's big-endian value at absolute address `j`. -/
def MemEntry.byteAt (e : MemEntry) (j : Nat) : Nat :=
  e.value >>> (8 * (e.containerSize - 1 - (j - e.memOffset))) % 256

/-- Modelled from the spec: the covering entry with the greatest timestamp
at address `j` (later timestamps take precedence on overlapping bytes). -/
def latestWriteAt (m : MemoryPt) (j : Nat) : Option MemEntry :=
  m.foldl
    (fun acc e =>
      if e.covers j then
        match acc with
        | none => some e
        | some a => if a.timestamp ≤ e.timestamp then some e else some a
      else acc)
    none

/-- Modelled from the spec: the byte-level value of symbolic memory at one
address, reconstructed from the timestamped entry list; unwritten bytes
read as zero. -/
def MemoryPt.byteAt (m : MemoryPt) (j : Nat) : Nat :=
  match latestWriteAt m j with
  | some e => e.byteAt j
  | none => 0

/-- Big-endian assembly of `size` bytes of symbolic memory starting at
`offset`. -/
def MemoryPt.readBytes (m : MemoryPt) (offset : Nat) : Nat → Nat
  | 0 => 0
  | size + 1 => m.readBytes offset size * 256 + m.byteAt (offset + size)

/-- A flat overwritten byte-array memory (the concrete EVM model). -/
abbrev FlatMem := Nat → Nat

/-- The all-zero flat memory. -/
def FlatMem.empty : FlatMem := fun _ => 0

/-- A flat write overwrites the `size` bytes at `offset` with the big-endian
bytes of `value`. -/
def FlatMem.write (f : FlatMem) (offset size value : Nat) : FlatMem :=
  fun j =>
    if offset ≤ j ∧ j < offset + size then
      value >>> (8 * (size - 1 - (j - offset))) % 256
    else f j

/-- Big-endian assembly of `size` bytes of flat memory starting at
`offset`. -/
def FlatMem.readBytes (f : FlatMem) (offset : Nat) : Nat → Nat
  | 0 => 0
  | size + 1 => f.readBytes offset size * 256 + f (offset + size)

/-- Symbolic memory resulting from a sequence of 32-byte writes
`(offset, value)`, applied in order to empty memory. -/
def memOfWrites (ws : List (Nat × Nat)) : MemoryPt :=
  ws.foldl (fun m w => m.write w.1 32 w.2) []

/-- Flat memory resulting from the same sequence of 32-byte writes. -/
def flatOfWrites (ws : List (Nat × Nat)) : FlatMem :=
  ws.foldl (fun f w => f.write w.1 32 w.2) FlatMem.empty

/-- Modelled from the spec: a data-alias record `{ dataPt, shift, masker }`
for one contributing entry of a read; `shift` is the bit offset aligning the
entry's value with the result and `masker` selects the contributing bits of
the result. -/
structure DataAliasInfo where
  dataPt : DataPt
  shift : Int
  masker : Nat
deriving DecidableEq, Repr

/-- Does entry `e` supply at least one byte of the read `[offset,
offset+size)`, i.e. is it the latest write somewhere in the range?
Entries are identified by their unique timestamps. -/
def contributes (m : MemoryPt) (e : MemEntry) (offset size : Nat) : Bool :=
  (List.range size).any fun i =>
    ((latestWriteAt m (offset + i)).map MemEntry.timestamp) == some e.timestamp

/-- Bit mask of the result bytes supplied by entry `e` for the read
`[offset, offset+size)`. -/
def maskerOf (m : MemoryPt) (e : MemEntry) (offset size : Nat) : Nat :=
  (List.range size).foldl
    (fun acc i =>
      if ((latestWriteAt m (offset + i)).map MemEntry.timestamp)
          == some e.timestamp then
        acc ||| (255 <<< (8 * (size - 1 - i)))
      else acc)
    0

/-- Modelled from the spec: `MemoryPt.getDataAlias(offset, size)` scans all
prior entries for byte-range overlap in timestamp order and returns, for each
contributing entry, its symbol with the `(shift, masker)` pair; the list is
empty exactly when no entry contributes. -/
def getDataAlias (m : MemoryPt) (offset size : Nat) : List DataAliasInfo :=
  (m.filter (fun e => contributes m e offset size)).map fun e =>
    { dataPt := { value := e.value, source := .literal, wireIndex := none,
                  sourceSize := e.containerSize }
      shift := 8 * (((e.memOffset : Int) + e.containerSize) - ((offset : Int) + size))
      masker := maskerOf m e offset size }

/-- Modelled from the spec: number of placements generated by
`placeMemoryToStack` for a list of alias records.  A single fully-aligned,
fully-covering entry is a pure pass-through (no placement); otherwise every
contributing entry gets a shift (`SHR`/`SHL`) and a mask (`AND`) placement,
and the isolated fragments are combined with `OR` placements. -/
def placementsForAlias (infos : List DataAliasInfo) (size : Nat) : Nat :=
  match infos with
  | [] => 0
  | [info] =>
    if info.shift = 0 ∧ info.masker = 2 ^ (8 * size) - 1 then 0 else 2
  | _ => 2 * infos.length + (infos.length - 1)

/-- Symbolic `MLOAD` handler (`0x51`): query `getDataAlias` for the 32-byte
window; with contributing entries, reconstruct the value through
`placeMemoryToStack` (modelled from the spec: the reconstructed symbol
carries the byte-level value of the window and the generated placement
count); with none, load a zero auxiliary input and generate no placement.
Returns the pushed symbol, the updated state and the number of new
placements. -/
def mloadPt (s : StateManager) (m : MemoryPt) (offset : Nat) :
    DataPt × StateManager × Nat :=
  let dataAliasInfos := getDataAlias m offset 32
  if dataAliasInfos.length > 0 then
    ({ value := m.readBytes offset 32, source := .placement s.placementIndex,
       wireIndex := some 0, sourceSize := 32 },
     { s with placementIndex := s.placementIndex + placementsForAlias dataAliasInfos 32 },
     placementsForAlias dataAliasInfos 32)
  else
    let (pt, s1) := loadAuxin s 0
    (pt, s1, 0)

/-- Division handler value path (`0x04 DIV`):
`b === 0 ? 0 : mod(a / b, TWO_POW256)`; there is no error branch. -/
def divHandler (a b : Nat) : Except String Nat :=
  .ok (if b = 0 then 0 else (a / b) % TWO_POW256)

/-- Modelled from the spec: the `MOD` handler follows the same EVM
convention as `DIV` (`0x06`, ALU2): modulo by zero evaluates to 0 and is
not an error. -/
def modHandler (a b : Nat) : Except String Nat :=
  .ok (if b = 0 then 0 else (a % b) % TWO_POW256)

/-- Finalizer wire splitting (`placementRefactor.ts:53-82`,
`halveWordSizeOfWires`): a wire whose declared source size exceeds 16 bytes
is appended as two wires carrying the low and high 128-bit limbs; otherwise
it is appended unchanged.  Returns the extended wire list and the new wire
indices. -/
def halveWordSizeOfWires (newDataPts : List DataPt) (origDataPt : DataPt) :
    List DataPt × List Nat :=
  let newIndex := newDataPts.length
  let indLow := newIndex
  let indHigh := indLow + 1
  if origDataPt.sourceSize > 16 then
    let lowPt : DataPt :=
      { origDataPt with
        wireIndex := some indLow
        value := origDataPt.value &&& (2 ^ 128 - 1) }
    let highPt : DataPt :=
      { origDataPt with
        wireIndex := some indHigh
        value := origDataPt.value >>> 128 }
    (newDataPts ++ [lowPt, highPt], [indLow, indHigh])
  else
    (newDataPts ++ [{ origDataPt with wireIndex := some newIndex }], [newIndex])

/-- Low-order bits of `e`, least significant first, `k` bits
(the reversed output of the `DecToBit` decomposition). -/
def bitsOf : Nat → Nat → List Nat
  | _, 0 => []
  | e, k + 1 => e % 2 :: bitsOf (e / 2) k

/-- Value of a least-significant-first bit list. -/
def ofBits : List Nat → Nat
  | [] => 0
  | b :: bs => b + 2 * ofBits bs

/-- Bit symbols output by the `DecToBit` placement with id `id`, wire
indices counting from `i`. -/
def mkBitPts (id : Nat) : List Nat → Nat → List DataPt
  | [], _ => []
  | b :: bs, i =>
    { value := b, source := .placement id, wireIndex := some i,
      sourceSize := 1 } :: mkBitPts id bs (i + 1)

/-- Cumulative-result output symbol of one `SubEXP` placement:
the previous cumulative result times the previous power raised to the
exponent bit, modulo `2 ^ 256`. -/
def subExpC (c a b : DataPt) (id : Nat) : DataPt :=
  { value := c.value * a.value ^ b.value % TWO_POW256,
    source := .placement id, wireIndex := some 0, sourceSize := 32 }

/-- Squared-power output symbol of one `SubEXP` placement. -/
def subExpA (a : DataPt) (id : Nat) : DataPt :=
  { value := a.value * a.value % TWO_POW256,
    source := .placement id, wireIndex := some 1, sourceSize := 32 }

/-- The square-and-multiply loop of `placeExp` (`exp.ts:36-41`): each
iteration emits one `SubEXP` placement consuming the previous
cumulative-result symbol, the previous current-power symbol and one exponent
bit, and producing the next cumulative-result and squared-power symbols. -/
def expLoop (c a : DataPt) (bits : List DataPt) (id : Nat) :
    DataPt × DataPt × List Placement :=
  match bits with
  | [] => (c, a, [])
  | b :: bs =>
    let rest := expLoop (subExpC c a b id) (subExpA a id) bs (id + 1)
    (rest.1, rest.2.1,
     { subcircuitName := "ALU1", usage := "SubEXP",
       inPts := [c, a, b],
       outPts := [subExpC c a b id, subExpA a id] } :: rest.2.2)

/-- The literal one symbol that seeds the cumulative result of `placeExp`. -/
def onePt : DataPt :=
  { value := 1, source := .literal, wireIndex := none, sourceSize := 1 }

/-- The `EXP` composite (`placeExp`, `exp.ts:12-44`): for exponent 0 the
result is the literal 1 with no placements; otherwise one `DecToBit`
placement decomposes the exponent into its `k = bitlength(exponent)` bits
and `k` chained `SubEXP` placements perform square-and-multiply. -/
def placeExp (aPt bPt : DataPt) (startId : Nat) : DataPt × List Placement :=
  if bPt.value = 0 then (onePt, [])
  else
    let k := Nat.log2 bPt.value + 1
    let bitifyOutPts := mkBitPts startId (bitsOf bPt.value k) 0
    let decToBit : Placement :=
      { subcircuitName := "DecToBit", usage := "DecToBit",
        inPts := [bPt], outPts := bitifyOutPts }
    let r := expLoop onePt aPt bitifyOutPts (startId + 1)
    (r.1, decToBit :: r.2.2)

end Synth

namespace Synth

/-! ## Helper lemmas -/

theorem mapGet_mapSet_ne (m : List (Nat × Placement)) (k i : Nat)
    (p : Placement) (h : i ≠ k) : mapGet (mapSet m k p) i = mapGet m i := by
  induction m with
  | nil => simp [mapGet, mapSet]; omega
  | cons hd tl ih =>
    obtain ⟨k0, v0⟩ := hd
    by_cases hk : k0 = k
    · subst hk
      simp [mapGet, mapSet, h, Ne.symm h]
    · simp only [mapSet, if_neg hk]
      by_cases hi : k0 = i
      · subst hi; simp [mapGet]
      · simp [mapGet, hi, ih]

theorem registerNext_placementIndex (s : StateManager) (p : Placement) :
    (registerNext s p).placementIndex = s.placementIndex + 1 := rfl

theorem registerAll_preserves_low (ps : List Placement) :
    ∀ (s : StateManager) (i : Nat), i < s.placementIndex →
      mapGet (registerAll s ps).placements i = mapGet s.placements i := by
  induction ps with
  | nil => intro s i _; rfl
  | cons p rest ih =>
    intro s i hi
    show mapGet (registerAll (registerNext s p) rest).placements i = _
    rw [ih (registerNext s p) i (by simp [registerNext_placementIndex]; omega)]
    exact mapGet_mapSet_ne _ _ _ _ (Nat.ne_of_lt hi)

theorem assignedIds_eq (ps : List Placement) :
    ∀ s : StateManager,
      assignedIds s ps = List.range' s.placementIndex ps.length := by
  induction ps with
  | nil => intro s; rfl
  | cons p rest ih =>
    intro s
    show s.placementIndex :: assignedIds (registerNext s p) rest =
      List.range' s.placementIndex (rest.length + 1)
    rw [ih, registerNext_placementIndex, List.range'_succ]

/-! ## C3: placement id monotonicity -/

theorem range'_getD (len : Nat) :
    ∀ (s n : Nat), n < len → (List.range' s len).getD n 0 = s + n := by
  induction len with
  | zero => intro s n h; omega
  | succ len ih =>
    intro s n h
    rw [List.range'_succ]
    cases n with
    | zero => rfl
    | succ n =>
      show (List.range' (s + 1) len).getD n 0 = s + (n + 1)
      rw [ih (s + 1) n (by omega)]
      omega

/-- C3: placement ids are assigned by `getNextPlacementIndex` in strictly
increasing order starting at 4 (the id of the (n+1)-th registered placement
is `4 + n`), and the reserved buffer placements 0 through 3 created at
StateManager construction are never reassigned by any sequence of placement
registrations. -/
theorem placement_ids_monotone :
    (∀ ps : List Placement,
        assignedIds StateManager.mk0 ps = List.range' 4 ps.length) ∧
    (∀ (ps : List Placement) (n : Nat), n < ps.length →
        (assignedIds StateManager.mk0 ps).getD n 0 = 4 + n) ∧
    (∀ (ps : List Placement) (m n : Nat), m < n → n < ps.length →
        (assignedIds StateManager.mk0 ps).getD m 0 <
          (assignedIds StateManager.mk0 ps).getD n 0) ∧
    (∀ (ps : List Placement) (i : Nat), i ≤ 3 →
        mapGet (registerAll StateManager.mk0 ps).placements i =
          mapGet initPlacements i) := by
  have hids : ∀ ps : List Placement,
      assignedIds StateManager.mk0 ps = List.range' 4 ps.length := by
    intro ps; rw [assignedIds_eq]; rfl
  have hget : ∀ (ps : List Placement) (n : Nat), n < ps.length →
      (assignedIds StateManager.mk0 ps).getD n 0 = 4 + n := by
    intro ps n h
    rw [hids, range'_getD ps.length 4 n h]
  refine ⟨hids, hget, ?_, ?_⟩
  · intro ps m n hmn hn
    rw [hget ps m (by omega), hget ps n hn]; omega
  · intro ps i hi
    exact registerAll_preserves_low ps StateManager.mk0 i (by
      show i < 4; omega)

/-- Witness for C3 at a concrete registration sequence. -/
theorem placement_ids_monotone_witness :
    assignedIds StateManager.mk0
        [bufferPlacement "p", bufferPlacement "q"] = [4, 5] ∧
    mapGet (registerAll StateManager.mk0
        [bufferPlacement "p", bufferPlacement "q"]).placements 2 =
      mapGet initPlacements 2 := by
  refine ⟨?_, ?_⟩
  · rw [placement_ids_monotone.1 [bufferPlacement "p", bufferPlacement "q"]]
    rfl
  · exact placement_ids_monotone.2.2.2
      [bufferPlacement "p", bufferPlacement "q"] 2 (by omega)

/-! ## C4: warm-cache idempotence of loadStorage -/

/-- C4: loading the same storage slot a second time with no intervening
state change returns the identical DataPt (same source and wireIndex, being
the same object) and leaves the whole state unchanged: no wire is added to
the PRV_IN buffer and no placement is created by the second call. -/
theorem loadStorage_warm_idempotent (s : StateManager) (codeAddress : String)
    (key value : Nat) (pt1 : DataPt) (s1 : StateManager)
    (h : loadStorage s codeAddress key value = some (pt1, s1)) :
    loadStorage s1 codeAddress key value = some (pt1, s1) := by
  unfold loadStorage at h ⊢
  cases hl : s.storagePt.lookup (storageKeyString codeAddress key) with
  | some pt =>
    rw [hl] at h
    simp only [Option.some.injEq, Prod.mk.injEq] at h
    obtain ⟨h1, h2⟩ := h
    subst h1; subst h2
    rw [hl]
  | none =>
    rw [hl] at h
    cases hw : addWireToInBuffer s
        { value := value, source := .literal, wireIndex := none,
          sourceSize := 32 } PRV_IN_PLACEMENT_INDEX with
    | none => rw [hw] at h; exact absurd h (by simp)
    | some r =>
      obtain ⟨outPt, s2⟩ := r
      rw [hw] at h
      simp only [Option.some.injEq, Prod.mk.injEq] at h
      obtain ⟨h1, h2⟩ := h
      subst h1
      subst h2
      simp [List.lookup]

/-- Witness for C4 at a concrete first load. -/
theorem loadStorage_warm_idempotent_witness :
    ∃ pt1 s1,
      loadStorage StateManager.mk0 "0xabc" 7 42 = some (pt1, s1) ∧
      loadStorage s1 "0xabc" 7 42 = some (pt1, s1) := by
  refine ⟨_, _, rfl, loadStorage_warm_idempotent StateManager.mk0 "0xabc" 7 42 _ _ rfl⟩

/-! ## C5: limb round-trip in the finalizer -/

theorem lor_low_high (v : Nat) : (v % 2 ^ 128) ||| ((v >>> 128) <<< 128) = v := by
  apply Nat.eq_of_testBit_eq
  intro j
  simp only [Nat.testBit_lor, Nat.testBit_mod_two_pow, Nat.testBit_shiftLeft,
    Nat.testBit_shiftRight]
  by_cases hj : j < 128
  · simp [hj, Nat.not_le.mpr hj]
  · have h1 : 128 ≤ j := Nat.not_lt.mp hj
    have h2 : 128 + (j - 128) = j := by omega
    simp [hj, h1, h2]

/-- C5: during placement refactoring, every wire whose value exceeds 128
bits (and fits its declared source size) is split into exactly two wires
carrying the low and high 128-bit limbs, and `low ||| (high <<< 128)`
recovers the original value. -/
theorem halveWordSizeOfWires_limb_round_trip (newDataPts : List DataPt)
    (origDataPt : DataPt)
    (hfit : origDataPt.value < 2 ^ (8 * origDataPt.sourceSize))
    (hbig : 2 ^ 128 ≤ origDataPt.value) :
    ∃ lowPt highPt,
      halveWordSizeOfWires newDataPts origDataPt =
        (newDataPts ++ [lowPt, highPt],
         [newDataPts.length, newDataPts.length + 1]) ∧
      lowPt.value = origDataPt.value &&& (2 ^ 128 - 1) ∧
      highPt.value = origDataPt.value >>> 128 ∧
      lowPt.value ||| (highPt.value <<< 128) = origDataPt.value := by
  have hlt : (2 : Nat) ^ 128 < 2 ^ (8 * origDataPt.sourceSize) :=
    Nat.lt_of_le_of_lt hbig hfit
  have hsz : origDataPt.sourceSize > 16 := by
    have := (Nat.pow_lt_pow_iff_right (by omega : 1 < 2)).mp hlt
    omega
  refine ⟨{ origDataPt with
              wireIndex := some newDataPts.length
              value := origDataPt.value &&& (2 ^ 128 - 1) },
          { origDataPt with
              wireIndex := some (newDataPts.length + 1)
              value := origDataPt.value >>> 128 }, ?_, rfl, rfl, ?_⟩
  · unfold halveWordSizeOfWires
    rw [if_pos hsz]
  · show origDataPt.value &&& (2 ^ 128 - 1) ||| (origDataPt.value >>> 128 <<< 128) =
      origDataPt.value
    rw [Nat.and_pow_two_sub_one_eq_mod]
    exact lor_low_high origDataPt.value

/-- Witness for C5 at a concrete 256-bit wire. -/
theorem halveWordSizeOfWires_limb_round_trip_witness :
    (2 : Nat) ^ 200 + 5 < 2 ^ (8 * 32) ∧ 2 ^ 128 ≤ 2 ^ 200 + 5 ∧
    ∃ lowPt highPt,
      halveWordSizeOfWires []
          { value := 2 ^ 200 + 5, source := .literal, wireIndex := none,
            sourceSize := 32 } =
        ([lowPt, highPt], [0, 1]) ∧
      lowPt.value ||| (highPt.value <<< 128) = 2 ^ 200 + 5 := by
  refine ⟨by norm_num, by norm_num, ?_⟩
  obtain ⟨lowPt, highPt, heq, _, _, hrt⟩ :=
    halveWordSizeOfWires_limb_round_trip []
      { value := 2 ^ 200 + 5, source := .literal, wireIndex := none,
        sourceSize := 32 }
      (by norm_num) (by norm_num)
  exact ⟨lowPt, highPt, by simpa using heq, hrt⟩

/-! ## C7: division and modulo by zero are not errors -/

/-- C7: for every pair of operands the symbolic DIV and MOD handlers return
0 when the divisor is 0, and neither handler ever raises an error. -/
theorem div_mod_by_zero_is_zero :
    (∀ a : Nat, divHandler a 0 = .ok 0 ∧ modHandler a 0 = .ok 0) ∧
    (∀ a b : Nat, ∃ r1 r2, divHandler a b = .ok r1 ∧ modHandler a b = .ok r2) := by
  constructor
  · intro a; exact ⟨by simp [divHandler], by simp [modHandler]⟩
  · intro a b; exact ⟨_, _, rfl, rfl⟩

/-! ## C10: placeArith output source versus registered id -/

/-- C10 evaluation at the failing input: composing the documented snippets
literally, the very first `placeArith('ADD', [10, 5])` on a fresh
StateManager produces an output DataPt with `source = 4` but registers the
placement under id 5, because `getNextPlacementIndex` is called once when
creating the output DataPt and again when registering the placement.  The
output symbol therefore does not resolve to the placement that produced
it, contradicting the documentation's own worked example (which records
`placements.set(4, ...)` with `z.source = 4`). -/
theorem placeArith_counter_advanced_twice :
    ((placeArith StateManager.mk0 "ALU1" (some 2) "ADD"
        [{ value := 10, source := .literal, wireIndex := none, sourceSize := 32 },
         { value := 5, source := .literal, wireIndex := none, sourceSize := 32 }]
        15).1.source = Source.placement 4) ∧
    ((placeArith StateManager.mk0 "ALU1" (some 2) "ADD"
        [{ value := 10, source := .literal, wireIndex := none, sourceSize := 32 },
         { value := 5, source := .literal, wireIndex := none, sourceSize := 32 }]
        15).2.1 = 5) ∧
    (placeArith StateManager.mk0 "ALU1" (some 2) "ADD"
        [{ value := 10, source := .literal, wireIndex := none, sourceSize := 32 },
         { value := 5, source := .literal, wireIndex := none, sourceSize := 32 }]
        15).1.source ≠ Source.placement
      ((placeArith StateManager.mk0 "ALU1" (some 2) "ADD"
        [{ value := 10, source := .literal, wireIndex := none, sourceSize := 32 },
         { value := 5, source := .literal, wireIndex := none, sourceSize := 32 }]
        15).2.1) := by
  refine ⟨rfl, rfl, ?_⟩
  intro h
  exact absurd h (by decide)

end Synth

namespace Synth

/-! ## C2: aliasing round-trip between MemoryPt and flat memory -/

theorem mem_of_foldl_latest (j : Nat) (m : List MemEntry) :
    ∀ (acc : Option MemEntry) (a : MemEntry),
      m.foldl
        (fun acc e =>
          if e.covers j then
            match acc with
            | none => some e
            | some a0 =>
              if a0.timestamp ≤ e.timestamp then some e else some a0
          else acc) acc = some a →
      a ∈ m ∨ acc = some a := by
  induction m with
  | nil => intro acc a h; right; exact h
  | cons e tl ih =>
    intro acc a h
    rw [List.foldl_cons] at h
    rcases ih _ a h with htl | hstep
    · left; exact List.mem_cons_of_mem e htl
    · by_cases hc : e.covers j
      · rw [if_pos hc] at hstep
        cases acc with
        | none =>
          have hstep2 : some e = some a := hstep
          left
          simp only [Option.some.injEq] at hstep2
          rw [← hstep2]
          exact List.mem_cons_self e tl
        | some a0 =>
          have hstep2 :
              (if a0.timestamp ≤ e.timestamp then some e else some a0) =
                some a := hstep
          by_cases hts : a0.timestamp ≤ e.timestamp
          · rw [if_pos hts] at hstep2
            left
            simp only [Option.some.injEq] at hstep2
            rw [← hstep2]
            exact List.mem_cons_self e tl
          · rw [if_neg hts] at hstep2
            right; exact hstep2
      · rw [if_neg hc] at hstep
        right; exact hstep

theorem mem_of_latestWriteAt (m : MemoryPt) (j : Nat) (a : MemEntry)
    (h : latestWriteAt m j = some a) : a ∈ m := by
  rcases mem_of_foldl_latest j m none a h with hm | hnone
  · exact hm
  · exact absurd hnone (by simp)

theorem latestWriteAt_append (m : MemoryPt) (e : MemEntry) (j : Nat) :
    latestWriteAt (m ++ [e]) j =
      if e.covers j then
        match latestWriteAt m j with
        | none => some e
        | some a => if a.timestamp ≤ e.timestamp then some e else some a
      else latestWriteAt m j := by
  unfold latestWriteAt
  rw [List.foldl_append]
  rfl

theorem tsBounded_write (m : MemoryPt) (o sz v : Nat)
    (h : ∀ x ∈ m, x.timestamp < m.length) :
    ∀ x ∈ m.write o sz v, x.timestamp < (m.write o sz v).length := by
  intro x hx
  unfold MemoryPt.write at hx ⊢
  rw [List.length_append]
  rcases List.mem_append.mp hx with h1 | h2
  · have := h x h1; omega
  · simp only [List.mem_singleton] at h2
    subst h2
    simp

theorem byteAt_write (m : MemoryPt) (o sz v j : Nat)
    (hb : ∀ x ∈ m, x.timestamp < m.length) :
    (m.write o sz v).byteAt j =
      if o ≤ j ∧ j < o + sz then v >>> (8 * (sz - 1 - (j - o))) % 256
      else m.byteAt j := by
  unfold MemoryPt.byteAt
  rw [show m.write o sz v = m ++ [{ timestamp := m.length, memOffset := o, containerSize := sz, value := v }] from rfl, latestWriteAt_append]
  by_cases hc : ({ timestamp := m.length, memOffset := o, containerSize := sz, value := v } : MemEntry).covers j
  · rw [if_pos hc]
    have hc2 : o ≤ j ∧ j < o + sz := hc
    rw [if_pos hc2]
    cases hl : latestWriteAt m j with
    | none => rfl
    | some a =>
      have ha : a ∈ m := mem_of_latestWriteAt m j a hl
      have hts : a.timestamp ≤ m.length := Nat.le_of_lt (hb a ha)
      simp only [hts, if_pos]
      rfl
  · have hc2 : ¬ (o ≤ j ∧ j < o + sz) := hc
    rw [if_neg hc, if_neg hc2]

theorem byteAt_writes (ws : List (Nat × Nat)) :
    ∀ (m : MemoryPt) (f : FlatMem),
      (∀ x ∈ m, x.timestamp < m.length) →
      (∀ j, m.byteAt j = f j) →
      ∀ j, (ws.foldl (fun m w => m.write w.1 32 w.2) m).byteAt j =
        (ws.foldl (fun f w => f.write w.1 32 w.2) f) j := by
  induction ws with
  | nil => intro m f _ hpt j; exact hpt j
  | cons w rest ih =>
    intro m f hb hpt j
    simp only [List.foldl_cons]
    refine ih _ _ (tsBounded_write m w.1 32 w.2 hb) ?_ j
    intro j2
    rw [byteAt_write m w.1 32 w.2 j2 hb]
    show _ = FlatMem.write f w.1 32 w.2 j2
    unfold FlatMem.write
    by_cases hc : w.1 ≤ j2 ∧ j2 < w.1 + 32
    · rw [if_pos hc, if_pos hc]
    · rw [if_neg hc, if_neg hc]
      exact hpt j2

theorem readBytes_eq_of_byteAt (m : MemoryPt) (f : FlatMem)
    (hpt : ∀ j, m.byteAt j = f j) (offset : Nat) :
    ∀ size, m.readBytes offset size = f.readBytes offset size := by
  intro size
  induction size with
  | zero => rfl
  | succ n ih =>
    show m.readBytes offset n * 256 + m.byteAt (offset + n) = _
    rw [ih, hpt]
    rfl

/-- C2: for any sequence of 32-byte symbolic memory writes followed by a
32-byte read at any offset, the byte-level value reconstructed from the
timestamped entry list (later timestamps taking precedence on overlapping
bytes) equals what a flat overwritten byte-array memory, written in the same
order, contains at that range. -/
theorem aliasing_round_trip (ws : List (Nat × Nat)) (offset : Nat) :
    (memOfWrites ws).readBytes offset 32 =
      (flatOfWrites ws).readBytes offset 32 := by
  apply readBytes_eq_of_byteAt
  exact byteAt_writes ws [] FlatMem.empty (by intro x hx; cases hx)
    (fun j => rfl)

end Synth

namespace Synth

/-! ## C8: MLOAD on virgin memory -/

theorem foldl_latest_id (j : Nat) (m : List MemEntry)
    (h : ∀ e ∈ m, ¬ e.covers j) :
    ∀ acc : Option MemEntry,
      m.foldl
        (fun acc e =>
          if e.covers j then
            match acc with
            | none => some e
            | some a0 =>
              if a0.timestamp ≤ e.timestamp then some e else some a0
          else acc) acc = acc := by
  induction m with
  | nil => intro acc; rfl
  | cons e tl ih =>
    intro acc
    rw [List.foldl_cons, if_neg (h e (List.mem_cons_self e tl))]
    exact ih (fun x hx => h x (List.mem_cons_of_mem e hx)) acc

theorem latestWriteAt_none (m : MemoryPt) (j : Nat)
    (h : ∀ e ∈ m, ¬ e.covers j) : latestWriteAt m j = none :=
  foldl_latest_id j m h none

theorem getDataAlias_virgin (m : MemoryPt) (offset : Nat)
    (h : ∀ e ∈ m, ∀ i, i < 32 → ¬ e.covers (offset + i)) :
    getDataAlias m offset 32 = [] := by
  unfold getDataAlias
  rw [List.map_eq_nil_iff]
  rw [List.filter_eq_nil_iff]
  intro e he
  unfold contributes
  simp only [List.any_eq_true, not_exists, not_and, Bool.not_eq_true]
  intro i hi
  rw [latestWriteAt_none m (offset + i)
    (fun e2 he2 => h e2 he2 i (by simpa using hi))]
  rfl

/-- C8: an MLOAD on memory with zero prior overlapping writes returns a
zero-valued auxiliary symbol and generates zero new placements:
`getDataAlias` returns the empty list, the zero value is loaded as an
auxiliary input, and the placements map is unchanged. -/
theorem mload_virgin_zero (s : StateManager) (m : MemoryPt) (offset : Nat)
    (h : ∀ e ∈ m, ∀ i, i < 32 → ¬ e.covers (offset + i)) :
    getDataAlias m offset 32 = [] ∧
    (mloadPt s m offset).1.value = 0 ∧
    (mloadPt s m offset).1.source = Source.literal ∧
    (mloadPt s m offset).2.2 = 0 ∧
    (mloadPt s m offset).2.1.placements = s.placements := by
  have hga := getDataAlias_virgin m offset h
  refine ⟨hga, ?_, ?_, ?_, ?_⟩ <;>
    · unfold mloadPt
      rw [hga]
      rfl

/-- Witness for C8 on completely empty memory. -/
theorem mload_virgin_zero_witness :
    getDataAlias ([] : MemoryPt) 0 32 = [] ∧
    (mloadPt StateManager.mk0 [] 0).1.value = 0 ∧
    (mloadPt StateManager.mk0 [] 0).1.source = Source.literal ∧
    (mloadPt StateManager.mk0 [] 0).2.2 = 0 ∧
    (mloadPt StateManager.mk0 [] 0).2.1.placements =
      StateManager.mk0.placements := by
  have := mload_virgin_zero StateManager.mk0 [] 0 (by intro e he; cases he)
  exact this

end Synth

namespace Synth

/-! ## C9: the overlapping MSTORE/MLOAD example scenario -/

theorem mod_mul_split (w m : Nat) :
    w % (256 * m) = 256 * (w / 256 % m) + w % 256 := by
  rcases Nat.eq_zero_or_pos m with h0 | hm
  · subst h0
    simp [Nat.mod_zero, Nat.div_add_mod]
  · conv_lhs => rw [← Nat.div_add_mod w 256]
    rw [Nat.add_mod, Nat.mul_mod_mul_left]
    have h1 : w % 256 % (256 * m) = w % 256 :=
      Nat.mod_eq_of_lt (lt_of_lt_of_le (Nat.mod_lt w (by omega))
        (by nlinarith [hm]))
    rw [h1]
    apply Nat.mod_eq_of_lt
    have h2 : w / 256 % m < m := Nat.mod_lt _ hm
    have h3 : w % 256 < 256 := Nat.mod_lt w (by omega)
    nlinarith

theorem readBytes_split (m : MemoryPt) (a n1 : Nat) :
    ∀ n2, m.readBytes a (n1 + n2) =
      m.readBytes a n1 * 256 ^ n2 + m.readBytes (a + n1) n2 := by
  intro n2
  induction n2 with
  | zero => simp [MemoryPt.readBytes]
  | succ n ih =>
    show m.readBytes a (n1 + n) * 256 + m.byteAt (a + (n1 + n)) = _
    rw [ih]
    show _ = _ * 256 ^ (n + 1) +
      (m.readBytes (a + n1) n * 256 + m.byteAt (a + n1 + n))
    rw [show a + (n1 + n) = a + n1 + n by omega]
    ring

theorem readBytes_of_suffix_window (m : MemoryPt) (a : Nat) (v : Nat) :
    ∀ (n t : Nat),
      (∀ i < n, m.byteAt (a + i) = v >>> (8 * (t + (n - 1 - i))) % 256) →
      m.readBytes a n = v >>> (8 * t) % 2 ^ (8 * n) := by
  intro n
  induction n with
  | zero => intro t _; simp [MemoryPt.readBytes, Nat.mod_one]
  | succ n ih =>
    intro t hbyte
    show m.readBytes a n * 256 + m.byteAt (a + n) = _
    have hn : m.readBytes a n = v >>> (8 * (t + 1)) % 2 ^ (8 * n) := by
      apply ih
      intro i hi
      rw [hbyte i (by omega)]
      congr 2
      omega
    have hlast : m.byteAt (a + n) = v >>> (8 * t) % 256 := by
      rw [hbyte n (by omega)]
      congr 2
      omega
    rw [hn, hlast]
    have hshift : v >>> (8 * (t + 1)) = v >>> (8 * t) / 256 := by
      rw [show 8 * (t + 1) = 8 * t + 8 by omega, Nat.shiftRight_add,
        Nat.shiftRight_eq_div_pow]
    rw [hshift]
    have hsplit := mod_mul_split (v >>> (8 * t)) (2 ^ (8 * n))
    have hpow : 256 * 2 ^ (8 * n) = 2 ^ (8 * (n + 1)) := by
      rw [show 8 * (n + 1) = 8 + 8 * n by omega, pow_add]
      norm_num
    rw [hpow] at hsplit
    omega

theorem mem2_latest_low (X Y : Nat) (i : Nat) (hi : i < 16) :
    latestWriteAt
      (MemoryPt.write (MemoryPt.write [] 0x10 32 X) 0x00 32 Y) (16 + i) =
      some { timestamp := 1, memOffset := 0, containerSize := 32,
             value := Y } := by
  show latestWriteAt
    [{ timestamp := 0, memOffset := 16, containerSize := 32, value := X },
     { timestamp := 1, memOffset := 0, containerSize := 32, value := Y }]
    (16 + i) = _
  unfold latestWriteAt
  rw [List.foldl_cons, List.foldl_cons, List.foldl_nil]
  rw [if_pos (show ({ timestamp := 0, memOffset := 16, containerSize := 32, value := X } : MemEntry).covers (16 + i) from ⟨show (16 : Nat) ≤ 16 + i by omega, show 16 + i < 16 + 32 by omega⟩)]
  rw [if_pos (show ({ timestamp := 1, memOffset := 0, containerSize := 32, value := Y } : MemEntry).covers (16 + i) from ⟨show (0 : Nat) ≤ 16 + i by omega, show 16 + i < 0 + 32 by omega⟩)]
  rfl

theorem mem2_latest_high (X Y : Nat) (i : Nat) (hi : i < 16) :
    latestWriteAt
      (MemoryPt.write (MemoryPt.write [] 0x10 32 X) 0x00 32 Y) (32 + i) =
      some { timestamp := 0, memOffset := 16, containerSize := 32,
             value := X } := by
  show latestWriteAt
    [{ timestamp := 0, memOffset := 16, containerSize := 32, value := X },
     { timestamp := 1, memOffset := 0, containerSize := 32, value := Y }]
    (32 + i) = _
  unfold latestWriteAt
  rw [List.foldl_cons, List.foldl_cons, List.foldl_nil]
  rw [if_pos (show ({ timestamp := 0, memOffset := 16, containerSize := 32, value := X } : MemEntry).covers (32 + i) from ⟨show (16 : Nat) ≤ 32 + i by omega, show 32 + i < 16 + 32 by omega⟩)]
  rw [if_neg (show ¬ ({ timestamp := 1, memOffset := 0, containerSize := 32, value := Y } : MemEntry).covers (32 + i) from fun hcv => by
    have h2 : 32 + i < 0 + 32 := hcv.2
    omega)]

/-- C9 counterexample at the explicit input X = 2^256 - 1, Y = 0: after
MSTORE(0x10, X) then MSTORE(0x00, Y), MLOAD(0x00) returns Y's whole word
(value 0), because the later write covers the entire range.  The high 16
bytes are 0 rather than X's unshifted remainder (which is 2^128 - 1), and
the read is a pure pass-through generating 0 new placements, not at least
4. -/
theorem mload_scenario_counterexample :
    ((mloadPt StateManager.mk0
        (MemoryPt.write (MemoryPt.write [] 0x10 32 (2 ^ 256 - 1)) 0x00 32 0)
        0x00).1.value = 0) ∧
    ((mloadPt StateManager.mk0
        (MemoryPt.write (MemoryPt.write [] 0x10 32 (2 ^ 256 - 1)) 0x00 32 0)
        0x00).1.value >>> 128 ≠ (2 ^ 256 - 1) % 2 ^ 128) ∧
    ((mloadPt StateManager.mk0
        (MemoryPt.write (MemoryPt.write [] 0x10 32 (2 ^ 256 - 1)) 0x00 32 0)
        0x00).2.2 = 0) := by
  refine ⟨by decide, by decide, by decide⟩

/-- C9 amended, following the documented code example (the read is at 0x10,
not 0x00): after MSTORE(0x10, X) then MSTORE(0x00, Y), MLOAD(0x10) yields
the word whose bytes at 0x10-0x20 (the high-order 16 bytes of the result)
come from Y and whose bytes at 0x20-0x30 (the low-order 16 bytes) are X's
unshifted remainder, i.e. the value `(Y mod 2^128) * 2^128 + (X mod 2^128)`;
the read generates at least 4 new placements. -/
theorem mload_scenario_amended (X Y : Nat) :
    ((mloadPt StateManager.mk0
        (MemoryPt.write (MemoryPt.write [] 0x10 32 X) 0x00 32 Y)
        0x10).1.value = (Y % 2 ^ 128) * 2 ^ 128 + X % 2 ^ 128) ∧
    4 ≤ (mloadPt StateManager.mk0
        (MemoryPt.write (MemoryPt.write [] 0x10 32 X) 0x00 32 Y)
        0x10).2.2 := by
  constructor
  · show (MemoryPt.write (MemoryPt.write [] 0x10 32 X) 0x00 32 Y).readBytes
      0x10 32 = _
    rw [show (32 : Nat) = 16 + 16 from rfl,
      readBytes_split _ 0x10 16 16]
    have hlow : (MemoryPt.write (MemoryPt.write [] 0x10 32 X) 0x00 32
        Y).readBytes 0x10 16 = Y % 2 ^ 128 := by
      have := readBytes_of_suffix_window
        (MemoryPt.write (MemoryPt.write [] 0x10 32 X) 0x00 32 Y) 0x10 Y 16 0
        (by
          intro i hi
          unfold MemoryPt.byteAt
          rw [mem2_latest_low X Y i hi]
          show Y >>> (8 * (32 - 1 - (16 + i - 0))) % 256 = _
          congr 2
          omega)
      rw [this]
      norm_num
    have hhigh : (MemoryPt.write (MemoryPt.write [] 0x10 32 X) 0x00 32
        Y).readBytes 0x20 16 = X % 2 ^ 128 := by
      have := readBytes_of_suffix_window
        (MemoryPt.write (MemoryPt.write [] 0x10 32 X) 0x00 32 Y) 0x20 X 16 0
        (by
          intro i hi
          unfold MemoryPt.byteAt
          rw [mem2_latest_high X Y i hi]
          show X >>> (8 * (32 - 1 - (32 + i - 16))) % 256 = _
          congr 2
          omega)
      rw [this]
      norm_num
    rw [hlow]
    rw [show (0x10 : Nat) + 16 = 0x20 from rfl, hhigh]
    norm_num
  · have hcount : (mloadPt StateManager.mk0
        (MemoryPt.write (MemoryPt.write [] 0x10 32 X) 0x00 32 Y)
        0x10).2.2 = 5 := rfl
    omega

end Synth

namespace Synth

/-! ## C1: dual-interpreter stack fidelity and the fatal mismatch error -/

theorem stackConsistent_iff (stack : List Nat) :
    ∀ sp : List DataPt,
      stackConsistent stack sp = true ↔ sp.map DataPt.value = stack := by
  induction stack with
  | nil =>
    intro sp
    cases sp with
    | nil => simp [stackConsistent]
    | cons p ps => simp [stackConsistent]
  | cons a as ih =>
    intro sp
    cases sp with
    | nil => simp [stackConsistent]
    | cons p ps =>
      have hih := ih ps
      simp only [stackConsistent, List.length_cons, List.zip_cons_cons,
        List.all_cons, Bool.and_eq_true, beq_iff_eq] at hih ⊢
      constructor
      · rintro ⟨hlen, hval, hall⟩
        rw [List.map_cons, hih.mp ⟨by omega, hall⟩, hval]
      · intro hmap
        rw [List.map_cons] at hmap
        injection hmap with h1 h2
        have h3 := hih.mpr h2
        exact ⟨by omega, h1.symm, h3.2⟩

theorem map_value_get (sp : List DataPt) (stack : List Nat)
    (h : sp.map DataPt.value = stack) (i : Nat) (h1 : i < sp.length)
    (h2 : i < stack.length) :
    (sp.get ⟨i, h1⟩).value = stack.get ⟨i, h2⟩ := by
  subst h
  simp

theorem symbolicStep_mirrors (op : Opcode) (s : StateManager)
    (stack : List Nat) (sp : List DataPt)
    (hm : sp.map DataPt.value = stack)
    (hsome : (concreteStep op stack).isSome = true) :
    ∃ stack1 s1 sp1,
      concreteStep op stack = some stack1 ∧
      symbolicStep op s sp = some (s1, sp1) ∧
      sp1.map DataPt.value = stack1 := by
  cases op with
  | binary bop =>
    cases sp with
    | nil => subst hm; simp [concreteStep] at hsome
    | cons pa sp2 =>
      cases sp2 with
      | nil => subst hm; simp [concreteStep] at hsome
      | cons pb rest =>
        subst hm
        exact ⟨_, _, _, rfl, rfl, rfl⟩
  | unary uop =>
    cases sp with
    | nil => subst hm; simp [concreteStep] at hsome
    | cons pa rest =>
      subst hm
      exact ⟨_, _, _, rfl, rfl, rfl⟩
  | pop =>
    cases sp with
    | nil => subst hm; simp [concreteStep] at hsome
    | cons pa rest =>
      subst hm
      exact ⟨_, _, _, rfl, rfl, rfl⟩
  | push v =>
    subst hm
    exact ⟨_, _, _, rfl, rfl, rfl⟩
  | dup n =>
    subst hm
    cases hg : (sp.map DataPt.value).get? (n - 1) with
    | none =>
      rw [show concreteStep (.dup n) (sp.map DataPt.value) =
          (match (sp.map DataPt.value).get? (n - 1) with
            | some v => some (v :: sp.map DataPt.value)
            | none => none) from rfl, hg] at hsome
      exact absurd (show (none : Option (List Nat)).isSome = true from hsome)
        (by simp)
    | some v =>
      have hgm : (sp.map DataPt.value).get? (n - 1) = some v := hg
      rw [List.get?_map] at hg
      cases hg2 : sp.get? (n - 1) with
      | none =>
        rw [hg2] at hg
        exact absurd (show (none : Option Nat) = some v from hg) (by simp)
      | some pt =>
        rw [hg2] at hg
        have hval : pt.value = v := by
          injection (show some pt.value = some v from hg)
        refine ⟨v :: sp.map DataPt.value, s, pt :: sp, ?_, ?_, ?_⟩
        · show (match (sp.map DataPt.value).get? (n - 1) with
            | some v => some (v :: sp.map DataPt.value)
            | none => none) = _
          rw [hgm]
        · show (match sp.get? (n - 1) with
            | some pt => some (s, pt :: sp)
            | none => none) = _
          rw [hg2]
        · simp [hval]
  | swap n =>
    subst hm
    cases hg0 : sp.get? 0 with
    | none =>
      rw [show concreteStep (.swap n) (sp.map DataPt.value) =
          (match (sp.map DataPt.value).get? 0,
              (sp.map DataPt.value).get? n with
            | some a, some b =>
              some (((sp.map DataPt.value).set 0 b).set n a)
            | _, _ => none) from rfl] at hsome
      rw [List.get?_map, hg0] at hsome
      simp at hsome
    | some p0 =>
      cases hgn : sp.get? n with
      | none =>
        rw [show concreteStep (.swap n) (sp.map DataPt.value) =
            (match (sp.map DataPt.value).get? 0,
                (sp.map DataPt.value).get? n with
              | some a, some b =>
                some (((sp.map DataPt.value).set 0 b).set n a)
              | _, _ => none) from rfl] at hsome
        rw [List.get?_map, hg0, List.get?_map, hgn] at hsome
        simp at hsome
      | some pn =>
        refine ⟨((sp.map DataPt.value).set 0 pn.value).set n p0.value, s,
          (sp.set 0 pn).set n p0, ?_, ?_, ?_⟩
        · show (match (sp.map DataPt.value).get? 0,
              (sp.map DataPt.value).get? n with
            | some a, some b =>
              some (((sp.map DataPt.value).set 0 b).set n a)
            | _, _ => none) = _
          rw [List.get?_map, hg0, List.get?_map, hgn]
          rfl
        · show (match sp.get? 0, sp.get? n with
            | some a, some b => some (s, (sp.set 0 b).set n a)
            | _, _ => none) = _
          rw [hg0, hgn]
        · rw [List.map_set, List.map_set]

/-- C1: for every supported opcode, when the symbolic stack mirrors the
concrete stack, one dual-interpreter step runs both handlers and succeeds,
and afterwards the symbolic stack has the same length as the concrete stack
with `stackPt[i].value = stack[i]` at every position; and whenever the
post-handler stacks disagree in length or in any position, the consistency
check throws the fatal Stack mismatch error that aborts synthesis. -/
theorem runStep_stack_fidelity :
    (∀ (op : Opcode) (s : StateManager) (stack : List Nat)
        (sp : List DataPt),
      sp.map DataPt.value = stack →
      (concreteStep op stack).isSome = true →
      ∃ s1 stack1 sp1,
        runStep op s stack sp = .ok (s1, stack1, sp1) ∧
        sp1.length = stack1.length ∧
        ∀ (i : Nat) (h1 : i < sp1.length) (h2 : i < stack1.length),
          (sp1.get ⟨i, h1⟩).value = stack1.get ⟨i, h2⟩) ∧
    (∀ (stack1 : List Nat) (sp1 : List DataPt),
      (stack1.length ≠ sp1.length ∨
        ∃ i : Nat, stack1.get? i ≠ (sp1.get? i).map DataPt.value) →
      consistencyCheck stack1 sp1 =
        .error "Synthesizer: Stack mismatch between EVM and Synthesizer") := by
  constructor
  · intro op s stack sp hm hsome
    obtain ⟨stack1, s1, sp1, hc, hs, hmap⟩ :=
      symbolicStep_mirrors op s stack sp hm hsome
    refine ⟨s1, stack1, sp1, ?_, ?_, ?_⟩
    · unfold runStep
      rw [hc, hs]
      dsimp only
      unfold consistencyCheck
      rw [if_pos ((stackConsistent_iff stack1 sp1).mpr hmap)]
    · rw [← hmap, List.length_map]
    · intro i h1 h2
      exact map_value_get sp1 stack1 hmap i h1 h2
  · intro stack1 sp1 hmis
    unfold consistencyCheck
    by_cases hcons : stackConsistent stack1 sp1 = true
    · exfalso
      have hmap := (stackConsistent_iff stack1 sp1).mp hcons
      rcases hmis with hlen | ⟨i, hi⟩
      · apply hlen
        rw [← hmap, List.length_map]
      · apply hi
        rw [← hmap, List.get?_map]
    · rw [if_neg (by simpa using hcons)]

/-- Witness for C1: a concrete ADD step on mirrored stacks succeeds with
matching stacks, and a concrete mismatched pair of stacks produces the
fatal error. -/
theorem runStep_stack_fidelity_witness :
    (∃ s1 stack1 sp1,
      runStep (.binary .ADD) StateManager.mk0 [10, 5]
          [{ value := 10, source := .literal, wireIndex := none,
             sourceSize := 32 },
           { value := 5, source := .literal, wireIndex := none,
             sourceSize := 32 }] = .ok (s1, stack1, sp1) ∧
      sp1.length = stack1.length ∧
      ∀ (i : Nat) (h1 : i < sp1.length) (h2 : i < stack1.length),
        (sp1.get ⟨i, h1⟩).value = stack1.get ⟨i, h2⟩) ∧
    consistencyCheck [1] [] =
      .error "Synthesizer: Stack mismatch between EVM and Synthesizer" := by
  constructor
  · exact runStep_stack_fidelity.1 (.binary .ADD) StateManager.mk0 [10, 5]
      [{ value := 10, source := .literal, wireIndex := none, sourceSize := 32 },
       { value := 5, source := .literal, wireIndex := none, sourceSize := 32 }]
      rfl rfl
  · exact runStep_stack_fidelity.2 [1] [] (Or.inl (by decide))

end Synth

namespace Synth

/-! ## C6: structure of the EXP composite -/

theorem bitsOf_length : ∀ (k e : Nat), (bitsOf e k).length = k := by
  intro k
  induction k with
  | zero => intro e; rfl
  | succ k ih =>
    intro e
    show (bitsOf (e / 2) k).length + 1 = k + 1
    rw [ih]

theorem mkBitPts_map_value (id : Nat) :
    ∀ (bs : List Nat) (i : Nat),
      (mkBitPts id bs i).map DataPt.value = bs := by
  intro bs
  induction bs with
  | nil => intro i; rfl
  | cons b rest ih =>
    intro i
    show b :: (mkBitPts id rest (i + 1)).map DataPt.value = b :: rest
    rw [ih]

theorem mod_two_mul_split (w m : Nat) :
    w % (2 * m) = 2 * (w / 2 % m) + w % 2 := by
  rcases Nat.eq_zero_or_pos m with h0 | hm
  · subst h0
    simp [Nat.mod_zero, Nat.div_add_mod]
  · conv_lhs => rw [← Nat.div_add_mod w 2]
    rw [Nat.add_mod, Nat.mul_mod_mul_left]
    have h1 : w % 2 % (2 * m) = w % 2 :=
      Nat.mod_eq_of_lt (lt_of_lt_of_le (Nat.mod_lt w (by omega))
        (by nlinarith [hm]))
    rw [h1]
    apply Nat.mod_eq_of_lt
    have h2 : w / 2 % m < m := Nat.mod_lt _ hm
    have h3 : w % 2 < 2 := Nat.mod_lt w (by omega)
    nlinarith

theorem ofBits_bitsOf : ∀ (k e : Nat), ofBits (bitsOf e k) = e % 2 ^ k := by
  intro k
  induction k with
  | zero => intro e; simp [bitsOf, ofBits, Nat.mod_one]
  | succ k ih =>
    intro e
    show e % 2 + 2 * ofBits (bitsOf (e / 2) k) = e % 2 ^ (k + 1)
    rw [ih (e / 2)]
    rw [show (2 : Nat) ^ (k + 1) = 2 * 2 ^ k from by rw [pow_succ]; ring]
    rw [mod_two_mul_split]
    omega

theorem expLoop_structure (bits : List DataPt) :
    ∀ (c a : DataPt) (id : Nat),
      (expLoop c a bits id).2.2.length = bits.length ∧
      (∀ p ∈ (expLoop c a bits id).2.2,
        p.usage = "SubEXP" ∧ p.subcircuitName = "ALU1" ∧
          p.outPts.length = 2) ∧
      (∀ pb ∈ (expLoop c a bits id).2.2.zip bits,
        pb.1.inPts.drop 2 = [pb.2]) ∧
      (∀ p, (expLoop c a bits id).2.2.head? = some p →
        p.inPts.take 2 = [c, a]) ∧
      List.Chain' (fun p q => q.inPts.take 2 = p.outPts)
        (expLoop c a bits id).2.2 := by
  induction bits with
  | nil =>
    intro c a id
    refine ⟨rfl, ?_, ?_, ?_, ?_⟩ <;> simp [expLoop]
  | cons b bs ih =>
    intro c a id
    obtain ⟨ihlen, ihall, ihzip, ihhead, ihchain⟩ :=
      ih (subExpC c a b id) (subExpA a id) (id + 1)
    have hshape : (expLoop c a (b :: bs) id).2.2 =
        { subcircuitName := "ALU1", usage := "SubEXP",
          inPts := [c, a, b],
          outPts := [subExpC c a b id, subExpA a id] } ::
          (expLoop (subExpC c a b id) (subExpA a id) bs (id + 1)).2.2 := rfl
    rw [hshape]
    refine ⟨?_, ?_, ?_, ?_, ?_⟩
    · rw [List.length_cons, ihlen, List.length_cons]
    · intro p hp
      rcases List.mem_cons.mp hp with hp1 | hp2
      · subst hp1; exact ⟨rfl, rfl, rfl⟩
      · exact ihall p hp2
    · intro pb hpb
      rw [List.zip_cons_cons] at hpb
      rcases List.mem_cons.mp hpb with hp1 | hp2
      · subst hp1; rfl
      · exact ihzip pb hp2
    · intro p hp
      simp only [List.head?_cons, Option.some.injEq] at hp
      rw [← hp]
      rfl
    · rw [List.chain'_cons']
      refine ⟨?_, ihchain⟩
      intro q hq
      rw [ihhead q hq]

theorem expLoop_value (bits : List DataPt) :
    ∀ (c a : DataPt) (id : Nat),
      Nat.ModEq TWO_POW256 ((expLoop c a bits id).1.value)
        (c.value * a.value ^ ofBits (bits.map DataPt.value)) := by
  induction bits with
  | nil =>
    intro c a id
    show Nat.ModEq _ c.value (c.value * a.value ^ ofBits [])
    simp only [ofBits, pow_zero, mul_one]
    exact Nat.ModEq.refl _
  | cons b bs ih =>
    intro c a id
    show Nat.ModEq _
      ((expLoop (subExpC c a b id) (subExpA a id) bs (id + 1)).1.value) _
    have h1 := ih (subExpC c a b id) (subExpA a id) (id + 1)
    have h2 : Nat.ModEq TWO_POW256
        ((subExpC c a b id).value *
          (subExpA a id).value ^ ofBits (bs.map DataPt.value))
        (c.value * a.value ^ b.value *
          (a.value * a.value) ^ ofBits (bs.map DataPt.value)) :=
      Nat.ModEq.mul (Nat.mod_modEq _ _)
        (Nat.ModEq.pow _ (Nat.mod_modEq _ _))
    have h3 : c.value * a.value ^ b.value *
        (a.value * a.value) ^ ofBits (bs.map DataPt.value)
        = c.value *
          a.value ^ (b.value + 2 * ofBits (bs.map DataPt.value)) := by
      rw [show a.value * a.value = a.value ^ 2 from (sq a.value).symm,
        ← pow_mul, mul_assoc, ← pow_add]
    have h4 : Nat.ModEq TWO_POW256
        (c.value * a.value ^ b.value *
          (a.value * a.value) ^ ofBits (bs.map DataPt.value))
        (c.value *
          a.value ^ (b.value + 2 * ofBits (bs.map DataPt.value))) := by
      rw [h3]
    exact (h1.trans h2).trans h4

theorem expLoop_lt (bits : List DataPt) :
    ∀ (c a : DataPt) (id : Nat), bits ≠ [] →
      (expLoop c a bits id).1.value < TWO_POW256 := by
  induction bits with
  | nil => intro c a id h; exact absurd rfl h
  | cons b bs ih =>
    intro c a id _
    by_cases hbs : bs = []
    · subst hbs
      show (subExpC c a b id).value < TWO_POW256
      exact Nat.mod_lt _ (by norm_num [TWO_POW256])
    · exact ih (subExpC c a b id) (subExpA a id) (id + 1) hbs

/-- C6: for exponent 0 the EXP composite returns the literal 1 with no
placements and no bit decomposition; for exponent e > 0 it emits exactly
one DecToBit placement decomposing the exponent into its
k = bitlength(e) bits, followed by exactly k SubEXP placements chained
sequentially — each consuming the previous cumulative-result symbol, the
previous current-power symbol and one exponent bit, and producing the next
cumulative-result and squared-power symbols — and the final
cumulative-result symbol carries the value base ^ e mod 2^256. -/
theorem placeExp_structure (aPt bPt : DataPt) (startId : Nat) :
    (bPt.value = 0 →
      placeExp aPt bPt startId = (onePt, []) ∧ onePt.value = 1) ∧
    (bPt.value ≠ 0 →
      ∃ dec subs resPt,
        placeExp aPt bPt startId = (resPt, dec :: subs) ∧
        dec.usage = "DecToBit" ∧
        dec.inPts = [bPt] ∧
        dec.outPts.map DataPt.value =
          bitsOf bPt.value (Nat.log2 bPt.value + 1) ∧
        subs.length = Nat.log2 bPt.value + 1 ∧
        (∀ p ∈ subs, p.usage = "SubEXP" ∧ p.outPts.length = 2) ∧
        (∀ p, subs.head? = some p → p.inPts.take 2 = [onePt, aPt]) ∧
        List.Chain' (fun p q => q.inPts.take 2 = p.outPts) subs ∧
        (∀ pb ∈ subs.zip dec.outPts, pb.1.inPts.drop 2 = [pb.2]) ∧
        resPt.value = aPt.value ^ bPt.value % TWO_POW256) := by
  constructor
  · intro h0
    refine ⟨?_, rfl⟩
    unfold placeExp
    rw [if_pos h0]
  · intro hne
    have hplace : placeExp aPt bPt startId =
        ((expLoop onePt aPt
            (mkBitPts startId (bitsOf bPt.value (Nat.log2 bPt.value + 1)) 0)
            (startId + 1)).1,
         { subcircuitName := "DecToBit", usage := "DecToBit",
           inPts := [bPt],
           outPts := mkBitPts startId
             (bitsOf bPt.value (Nat.log2 bPt.value + 1)) 0 } ::
           (expLoop onePt aPt
             (mkBitPts startId (bitsOf bPt.value (Nat.log2 bPt.value + 1)) 0)
             (startId + 1)).2.2) := by
      unfold placeExp
      rw [if_neg hne]
    obtain ⟨hlen, hall, hzip, hhead, hchain⟩ :=
      expLoop_structure
        (mkBitPts startId (bitsOf bPt.value (Nat.log2 bPt.value + 1)) 0)
        onePt aPt (startId + 1)
    have hmaplen : (mkBitPts startId
        (bitsOf bPt.value (Nat.log2 bPt.value + 1)) 0).length =
        Nat.log2 bPt.value + 1 := by
      calc (mkBitPts startId (bitsOf bPt.value (Nat.log2 bPt.value + 1))
            0).length
          = ((mkBitPts startId
              (bitsOf bPt.value (Nat.log2 bPt.value + 1)) 0).map
              DataPt.value).length := (List.length_map _ _).symm
        _ = (bitsOf bPt.value (Nat.log2 bPt.value + 1)).length := by
            rw [mkBitPts_map_value]
        _ = Nat.log2 bPt.value + 1 := bitsOf_length _ _
    refine ⟨_, _, _, hplace, rfl, rfl, ?_, ?_, ?_, ?_, ?_, ?_, ?_⟩
    · show (mkBitPts startId
        (bitsOf bPt.value (Nat.log2 bPt.value + 1)) 0).map DataPt.value = _
      rw [mkBitPts_map_value]
    · rw [hlen, hmaplen]
    · intro p hp
      exact ⟨(hall p hp).1, (hall p hp).2.2⟩
    · exact hhead
    · exact hchain
    · exact hzip
    · have he : ofBits ((mkBitPts startId
          (bitsOf bPt.value (Nat.log2 bPt.value + 1)) 0).map DataPt.value) =
          bPt.value := by
        rw [mkBitPts_map_value, ofBits_bitsOf]
        apply Nat.mod_eq_of_lt
        rw [Nat.log2_eq_log_two]
        exact Nat.lt_pow_succ_log_self (by omega) bPt.value
      have hnonempty : mkBitPts startId
          (bitsOf bPt.value (Nat.log2 bPt.value + 1)) 0 ≠ [] := by
        intro hc
        rw [hc] at hmaplen
        exact absurd hmaplen.symm (by simp)
      have hv := expLoop_value
        (mkBitPts startId (bitsOf bPt.value (Nat.log2 bPt.value + 1)) 0)
        onePt aPt (startId + 1)
      have hlt := expLoop_lt
        (mkBitPts startId (bitsOf bPt.value (Nat.log2 bPt.value + 1)) 0)
        onePt aPt (startId + 1) hnonempty
      have hmod : (expLoop onePt aPt
          (mkBitPts startId (bitsOf bPt.value (Nat.log2 bPt.value + 1)) 0)
          (startId + 1)).1.value % TWO_POW256 =
          onePt.value * aPt.value ^ ofBits ((mkBitPts startId
            (bitsOf bPt.value (Nat.log2 bPt.value + 1)) 0).map
            DataPt.value) % TWO_POW256 := hv
      rw [he] at hmod
      calc (expLoop onePt aPt
            (mkBitPts startId (bitsOf bPt.value (Nat.log2 bPt.value + 1)) 0)
            (startId + 1)).1.value
          = (expLoop onePt aPt
            (mkBitPts startId (bitsOf bPt.value (Nat.log2 bPt.value + 1)) 0)
            (startId + 1)).1.value % TWO_POW256 :=
            (Nat.mod_eq_of_lt hlt).symm
        _ = onePt.value * aPt.value ^ bPt.value % TWO_POW256 := hmod
        _ = aPt.value ^ bPt.value % TWO_POW256 := by
            rw [show onePt.value = 1 from rfl, one_mul]

/-- Witness for C6 at 3 ^ 13 (and exponent 0). -/
theorem placeExp_structure_witness :
    (∃ dec subs resPt,
      placeExp
          { value := 3, source := .literal, wireIndex := none,
            sourceSize := 32 }
          { value := 13, source := .literal, wireIndex := none,
            sourceSize := 32 } 7 = (resPt, dec :: subs) ∧
        dec.usage = "DecToBit" ∧ subs.length = 4 ∧
        resPt.value = 1594323) ∧
    placeExp
        { value := 3, source := .literal, wireIndex := none,
          sourceSize := 32 }
        { value := 0, source := .literal, wireIndex := none,
          sourceSize := 32 } 7 = (onePt, []) := by
  constructor
  · obtain ⟨dec, subs, resPt, heq, hdec, _, _, hlen, _, _, _, _, hval⟩ :=
      (placeExp_structure
        { value := 3, source := .literal, wireIndex := none,
          sourceSize := 32 }
        { value := 13, source := .literal, wireIndex := none,
          sourceSize := 32 } 7).2 (by decide)
    refine ⟨dec, subs, resPt, heq, hdec, ?_, ?_⟩
    · rw [hlen]
      have hl : Nat.log2 13 = 3 := by
        rw [Nat.log2_eq_log_two]
        exact Nat.log_eq_of_pow_le_of_lt_pow (by norm_num) (by norm_num)
      rw [show ({ value := 13, source := Source.literal, wireIndex := none, sourceSize := 32 } : DataPt).value = 13 from rfl, hl]
    · rw [hval]
      norm_num [TWO_POW256]
  · exact ((placeExp_structure
      { value := 3, source := .literal, wireIndex := none,
        sourceSize := 32 }
      { value := 0, source := .literal, wireIndex := none,
        sourceSize := 32 } 7).1 rfl).1

end Synth
